import Mathlib

/-!
Verification of the kraken package-index configuration model.

This file gives a shallow embedding of the core of the repository:
* `uv.py` (`UvIndex`, `UvIndexes` and the `UvPyprojectHandler` write-back), and
* `pyproject.py` (`Pyproject` / `PyprojectBase` document helpers),
together with theorems settling the frozen claims about them.

Python dictionaries are modelled as ordered association lists
(`List (String × α)`): insertion order is preserved, assignment updates the
value in place keeping the key position, and new keys are appended at the
end, exactly as in CPython.  Documents (`pyproject.toml` content) are
modelled by the `TomlVal` tree.
-/

set_option autoImplicit false

namespace Kraken

/-- A TOML-like document value: strings, booleans, arrays and tables
(ordered string-keyed maps). -/
inductive TomlVal where
  | str (s : String)
  | bool (b : Bool)
  | arr (elems : List TomlVal)
  | table (entries : List (String × TomlVal))

/-- Python `d[k]` / `d.get(k)` on an ordered dict: value of the first
entry whose key is `k`. -/
def dictGet {α : Type} : List (String × α) → String → Option α
  | [], _ => none
  | (k', v) :: rest, k => if k' = k then some v else dictGet rest k

/-- Python `k in d`. -/
def dictHas {α : Type} : List (String × α) → String → Bool
  | [], _ => false
  | (k', _) :: rest, k => if k' = k then true else dictHas rest k

/-- Python `d[k] = v`: update in place (keeping the key's position) when the
key is present, append at the end otherwise.  Keys of a Python dict are
unique, so updating the first occurrence is assignment. -/
def dictSet {α : Type} : List (String × α) → String → α → List (String × α)
  | [], k, v => [(k, v)]
  | (k', w) :: rest, k, v =>
      if k' = k then (k, v) :: rest else (k', w) :: dictSet rest k v

/-- Python `del d[k]` / `d.pop(k, None)`: remove the entry with key `k`
(keys are unique in a Python dict, so removing every occurrence is the same
as removing the one entry). -/
def dictErase {α : Type} : List (String × α) → String → List (String × α)
  | [], _ => []
  | (k', v) :: rest, k =>
      if k' = k then dictErase rest k else (k', v) :: dictErase rest k

theorem dictGet_append {α : Type} (d₁ d₂ : List (String × α)) (k : String) :
    dictGet (d₁ ++ d₂) k =
      match dictGet d₁ k with
      | some v => some v
      | none => dictGet d₂ k := by
  induction d₁ with
  | nil => simp [dictGet]
  | cons p rest ih =>
    obtain ⟨k', v⟩ := p
    by_cases h : k' = k <;> simp [dictGet, h, ih]

theorem dictGet_none_of_not_has {α : Type} (d : List (String × α)) (k : String)
    (h : dictHas d k = false) : dictGet d k = none := by
  induction d with
  | nil => simp [dictGet]
  | cons p rest ih =>
    obtain ⟨k', v⟩ := p
    by_cases hk : k' = k
    · simp [dictHas, hk] at h
    · simp [dictGet, dictHas, hk] at h ⊢
      exact ih h

theorem dictGet_dictSet_self {α : Type} (d : List (String × α)) (k : String) (v : α) :
    dictGet (dictSet d k v) k = some v := by
  induction d with
  | nil => simp [dictSet, dictGet]
  | cons p rest ih =>
    obtain ⟨k', w⟩ := p
    by_cases hk : k' = k
    · simp [dictSet, dictGet, hk]
    · simp [dictSet, dictGet, hk, ih]

theorem dictGet_dictSet_ne {α : Type} (d : List (String × α)) (k k' : String) (v : α)
    (h : k' ≠ k) : dictGet (dictSet d k v) k' = dictGet d k' := by
  induction d with
  | nil => simp [dictSet, dictGet, Ne.symm h]
  | cons p rest ih =>
    obtain ⟨k₀, w⟩ := p
    by_cases hk : k₀ = k
    · subst hk
      have hne : ¬ k₀ = k' := fun hc => h hc.symm
      simp [dictSet, dictGet, Ne.symm h, hne]
    · by_cases hk' : k₀ = k'
      · simp [dictSet, dictGet, hk, hk', h]
      · simp [dictSet, dictGet, hk, hk', ih]

theorem dictGet_dictErase_self {α : Type} (d : List (String × α)) (k : String) :
    dictGet (dictErase d k) k = none := by
  induction d with
  | nil => simp [dictErase, dictGet]
  | cons p rest ih =>
    obtain ⟨k', v⟩ := p
    by_cases hk : k' = k
    · simp [dictErase, hk, ih]
    · simp [dictErase, dictGet, hk, ih]

theorem dictGet_dictErase_ne {α : Type} (d : List (String × α)) (k k' : String)
    (h : k' ≠ k) : dictGet (dictErase d k) k' = dictGet d k' := by
  induction d with
  | nil => simp [dictErase, dictGet]
  | cons p rest ih =>
    obtain ⟨k₀, v⟩ := p
    by_cases hk : k₀ = k
    · subst hk
      have hne : ¬ k₀ = k' := fun hc => h hc.symm
      simp [dictErase, dictGet, hne, ih]
    · by_cases hk' : k₀ = k'
      · simp [dictErase, dictGet, hk, hk', h]
      · simp [dictErase, dictGet, hk, hk', ih]

/-! ### Registry entries: `UvIndex` (uv.py lines 44–74) -/

/-- Splits a character list at the first occurrence of `"://"`, returning
the part before and the part after the separator. -/
def splitSchemeAux : List Char → Option (List Char × List Char)
  | [] => none
  | c :: rest =>
      if (c :: rest).take 3 = [':', '/', '/'] then some ([], rest.drop 2)
      else
        match splitSchemeAux rest with
        | some (a, b) => some (c :: a, b)
        | none => none

/-- Modelled from the spec: `inject_url_credentials` is imported by `uv.py`
from `kraken.std.util.url`, whose source is not part of this repository
excerpt.  Spec §4.2 says the masked and unmasked locations "both embed the
entry's credentials into the location as userinfo", so we insert
`username:secret@` as userinfo right after the URL's scheme separator. -/
def injectUrlCredentials (url username secret : String) : String :=
  match splitSchemeAux url.data with
  | some (scheme, rest) =>
      String.mk scheme ++ "://" ++ username ++ ":" ++ secret ++ "@" ++ String.mk rest
  | none => username ++ ":" ++ secret ++ "@" ++ url

/-- Model of `UvIndex` (uv.py line 44): one `[[tool.uv.index]]` entry.  `credentials`
is `None` or a `(username, secret)` pair; a pair is always truthy in
Python, so `if self.credentials:` is a match on the option. -/
structure UvIndex where
  url : String
  name : Option String := none
  default : Bool := false
  explicit : Bool := false
  credentials : Option (String × String) := none

/-- Embeds `UvIndex.safe_url` (uv.py lines 53–57). -/
def UvIndex.safe_url (i : UvIndex) : String :=
  match i.credentials with
  | some c => injectUrlCredentials i.url c.1 "[MASKED]"
  | none => i.url

/-- Embeds `UvIndex.unsafe_url` (uv.py lines 59–63). -/
def UvIndex.unsafe_url (i : UvIndex) : String :=
  match i.credentials with
  | some c => injectUrlCredentials i.url c.1 c.2
  | none => i.url

/-- Holds when `needle` occurs as a contiguous substring of `hay`. -/
def containsStr (hay needle : String) : Prop :=
  ∃ a b, hay.data = a ++ needle.data ++ b

theorem string_data_append (a b : String) : (a ++ b).data = a.data ++ b.data := rfl

theorem containsStr_injectUrlCredentials (url u s : String) :
    containsStr (injectUrlCredentials url u s) s := by
  unfold injectUrlCredentials
  split
  · rename_i scheme rest _
    exact ⟨(String.mk scheme ++ "://" ++ u ++ ":").data,
      ("@" ++ String.mk rest).data,
      by simp [string_data_append]⟩
  · exact ⟨(u ++ ":").data, ("@" ++ url).data, by simp [string_data_append]⟩

/-- The concrete registry entry on which claim C1, as stated, fails. -/
def c1Entry : UvIndex := { url := "http://x", credentials := some ("u", "t") }

/-- C1 counterexample: the entry with location `"http://x"` and credentials
`("u", "t")` has the non-empty secret `"t"`, yet its masked location
`"http://u:[MASKED]@x"` does contain `"t"` (inside `"http"`), so the masked
location is not free of the secret as a substring. -/
theorem safe_url_contains_secret_counterexample :
    ("t" : String) ≠ "" ∧ c1Entry.credentials = some ("u", "t")
      ∧ containsStr c1Entry.safe_url "t" := by
  refine ⟨by decide, rfl, ⟨"h".data, "tp://u:[MASKED]@x".data, by decide⟩⟩

/-- C1 (amended): for an entry with credentials `(u, s)` the masked location
is independent of the secret — any two secrets produce the same masked
location, in which the fixed placeholder stands where the secret would be —
while the unmasked location always contains `s` as a substring; an entry
without credentials returns its location unchanged from both. -/
theorem safe_url_masking (url u s s' : String) :
    (UvIndex.safe_url { url := url, credentials := some (u, s) }
        = UvIndex.safe_url { url := url, credentials := some (u, s') })
    ∧ containsStr (UvIndex.unsafe_url { url := url, credentials := some (u, s) }) s
    ∧ (∀ i : UvIndex, i.credentials = none →
        i.safe_url = i.url ∧ i.unsafe_url = i.url) := by
  refine ⟨rfl, ?_, ?_⟩
  · exact containsStr_injectUrlCredentials url u s
  · intro i h
    constructor <;> simp [UvIndex.safe_url, UvIndex.unsafe_url, h]

/-- Witness for C1's amended theorem at concrete inputs. -/
theorem safe_url_masking_witness :
    (UvIndex.safe_url { url := "http://x", credentials := some ("u", "s1") }
        = UvIndex.safe_url { url := "http://x", credentials := some ("u", "s2") })
    ∧ (({ url := "http://y" } : UvIndex).safe_url = "http://y"
        ∧ ({ url := "http://y" } : UvIndex).unsafe_url = "http://y") :=
  ⟨(safe_url_masking "http://x" "u" "s1" "s2").1,
   (safe_url_masking "http://y" "u" "s" "s").2.2 { url := "http://y" } rfl⟩

/-! ### Registry collections: `UvIndexes` (uv.py lines 77–137) -/

/-- Model of `UvIndexes` (uv.py line 77): a validated collection of indexes. -/
structure UvIndexes where
  indexes : List UvIndex

/-- Constructing a `UvIndexes`: the dataclass constructor runs
`__post_init__` (uv.py lines 81–83), which raises `ValueError` when more
than one index is flagged default. -/
def mkUvIndexes (indexes : List UvIndex) : Except String UvIndexes :=
  if (indexes.filter (fun i => i.default)).length > 1 then
    Except.error "There can be only one default index."
  else Except.ok ⟨indexes⟩

/-- C2: constructing a `UvIndexes` from a list with more than one default
entry fails with the validation error, and construction from a list with at
most one default entry succeeds, returning exactly the given list (the
violation is never silently corrected). -/
theorem mkUvIndexes_single_default (l : List UvIndex) :
    (mkUvIndexes l = Except.error "There can be only one default index."
        ↔ 1 < (l.filter (fun i => i.default)).length)
    ∧ (mkUvIndexes l = Except.ok ⟨l⟩
        ↔ (l.filter (fun i => i.default)).length ≤ 1) := by
  unfold mkUvIndexes
  by_cases h : 1 < (List.filter (fun i => i.default) l).length
  · constructor
    · simp [h]
    · simp [h]
  · constructor
    · simp [h]
    · simp [h]
      omega

/-- Witness for C2's theorem at concrete inputs: two defaults fail, one
default succeeds. -/
theorem mkUvIndexes_single_default_witness :
    mkUvIndexes [({ url := "http://a", default := true } : UvIndex),
        { url := "http://b", default := true }]
      = Except.error "There can be only one default index."
    ∧ mkUvIndexes [({ url := "http://a", default := true } : UvIndex)]
      = Except.ok ⟨[{ url := "http://a", default := true }]⟩ :=
  ⟨(mkUvIndexes_single_default _).1.mpr (by decide),
   (mkUvIndexes_single_default _).2.mpr (by decide)⟩

/-- One entry of `UvIndexes.to_config` (uv.py lines 108–117): a Python dict
built up by successive assignments. -/
def to_config_entry (i : UvIndex) : List (String × TomlVal) :=
  let entry : List (String × TomlVal) := []
  let entry := match i.name with
    | some n => if n ≠ "" then dictSet entry "name" (TomlVal.str n) else entry
    | none => entry
  let entry := dictSet entry "url" (TomlVal.str i.url)
  let entry := if i.default then dictSet entry "default" (TomlVal.bool true) else entry
  let entry := if i.explicit then dictSet entry "explicit" (TomlVal.bool true) else entry
  entry

/-- Embeds `UvIndexes.to_config` (uv.py lines 105–118): one map per index, in
collection order. -/
def to_config (xs : UvIndexes) : List (List (String × TomlVal)) :=
  xs.indexes.map to_config_entry

/-- The concrete registry entry on which claim C5, as stated, fails. -/
def c5Entry : UvIndex := { url := "http://x", credentials := some ("u", "p") }

/-- C5 counterexample: for an entry with credentials, `to_config` emits the
entry's stored location `"http://x"` as `url`, not the unmasked location
`"http://u:p@x"` with the credentials embedded, so the claim's description
of the `url` field is false. -/
theorem to_config_url_counterexample :
    to_config ⟨[c5Entry]⟩ = [[("url", TomlVal.str "http://x")]]
    ∧ c5Entry.unsafe_url = "http://u:p@x"
    ∧ ("http://x" : String) ≠ "http://u:p@x" :=
  ⟨rfl, rfl, by decide⟩

/-- C5 (amended): `to_config` emits one map per entry in collection order;
each map has `name` exactly when the entry's identity is non-empty, `url`
equal to the entry's stored location (credentials are never embedded),
`default: true` exactly when `isDefault` is set and `explicit: true`
exactly when `isExplicit` is set; false or empty fields are omitted. -/
theorem to_config_fields (xs : UvIndexes) :
    List.Forall₂ (fun (i : UvIndex) (e : List (String × TomlVal)) =>
        dictGet e "name" = (match i.name with
          | some n => if n ≠ "" then some (TomlVal.str n) else none
          | none => none)
        ∧ dictGet e "url" = some (TomlVal.str i.url)
        ∧ dictGet e "default" = (if i.default then some (TomlVal.bool true) else none)
        ∧ dictGet e "explicit" = (if i.explicit then some (TomlVal.bool true) else none))
      xs.indexes (to_config xs) := by
  obtain ⟨l⟩ := xs
  unfold to_config
  simp only
  induction l with
  | nil => exact List.Forall₂.nil
  | cons i rest ih =>
    refine List.Forall₂.cons ?_ ih
    obtain ⟨iu, iname, idef, iexp, icred⟩ := i
    cases iname with
    | none => cases idef <;> cases iexp <;> exact ⟨rfl, rfl, rfl, rfl⟩
    | some n =>
      by_cases hn : n = ""
      · subst hn
        cases idef <;> cases iexp <;> exact ⟨rfl, rfl, rfl, rfl⟩
      · cases idef <;> cases iexp <;>
          simp [to_config_entry, dictGet, dictSet, dictHas, hn]

/-- The token a non-default index contributes to `UV_INDEX`
(uv.py lines 131–133). -/
def uvIndexToken (i : UvIndex) : String :=
  (match i.name with
   | some n => if n ≠ "" then n ++ "=" else ""
   | none => "") ++ i.unsafe_url

/-- The loop of `UvIndexes.to_env` (uv.py lines 123–133), carrying the
`env` dict and the `uv_indexes` list. -/
def to_env_loop : List UvIndex → List (String × String) → List String →
    List (String × String) × List String
  | [], env, acc => (env, acc)
  | i :: rest, env, acc =>
      if i.default then
        to_env_loop rest (dictSet env "UV_DEFAULT_INDEX" i.unsafe_url) acc
      else
        to_env_loop rest env (acc ++ [uvIndexToken i])

/-- Embeds `UvIndexes.to_env` (uv.py lines 120–137). -/
def to_env (xs : UvIndexes) : List (String × String) :=
  let p := to_env_loop xs.indexes [] []
  if p.2.length ≠ 0 then dictSet p.1 "UV_INDEX" (String.intercalate " " p.2) else p.1

theorem to_env_loop_eq (l : List UvIndex) (env : List (String × String))
    (acc : List String) :
    to_env_loop l env acc =
      ((l.filter fun i => i.default).foldl
          (fun e i => dictSet e "UV_DEFAULT_INDEX" i.unsafe_url) env,
       acc ++ (l.filter fun i => !i.default).map uvIndexToken) := by
  induction l generalizing env acc with
  | nil => simp [to_env_loop]
  | cons i rest ih =>
    cases hd : i.default
    · simp [to_env_loop, hd, ih]
    · simp [to_env_loop, hd, ih]

theorem foldl_dictSet_shape (ds : List UvIndex) (env : List (String × String))
    (h : env = [] ∨ ∃ u, env = [("UV_DEFAULT_INDEX", u)]) :
    ds.foldl (fun e i => dictSet e "UV_DEFAULT_INDEX" i.unsafe_url) env = []
      ∨ ∃ u, ds.foldl (fun e i => dictSet e "UV_DEFAULT_INDEX" i.unsafe_url) env
          = [("UV_DEFAULT_INDEX", u)] := by
  induction ds generalizing env with
  | nil => exact h
  | cons i rest ih =>
    apply ih
    rcases h with h | ⟨u, h⟩ <;> subst h
    · exact Or.inr ⟨i.unsafe_url, rfl⟩
    · exact Or.inr ⟨i.unsafe_url, by simp [dictSet]⟩

/-- Number of bindings of key `k` in an environment dict. -/
def countKey (d : List (String × String)) (k : String) : Nat :=
  (d.filter fun p => p.1 == k).length

/-- C6: `to_env` maps the unique default entry (when exactly one entry is
default) to exactly one `UV_DEFAULT_INDEX` binding holding its unmasked
location; the non-default entries are joined, in order, into a single
space-separated `UV_INDEX` value of `identity=location` tokens built from
unmasked locations (the identity prefix omitted for empty identities);
`UV_INDEX` is absent when there are zero non-default entries; and at most
one `UV_DEFAULT_INDEX` binding is ever emitted. -/
theorem to_env_characterization (xs : UvIndexes) :
    (∀ d, xs.indexes.filter (fun i => i.default) = [d] →
        dictGet (to_env xs) "UV_DEFAULT_INDEX" = some d.unsafe_url
        ∧ countKey (to_env xs) "UV_DEFAULT_INDEX" = 1)
    ∧ (xs.indexes.filter (fun i => !i.default) = [] →
        dictGet (to_env xs) "UV_INDEX" = none)
    ∧ (xs.indexes.filter (fun i => !i.default) ≠ [] →
        dictGet (to_env xs) "UV_INDEX"
          = some (String.intercalate " "
              ((xs.indexes.filter (fun i => !i.default)).map uvIndexToken)))
    ∧ countKey (to_env xs) "UV_DEFAULT_INDEX" ≤ 1 := by
  obtain ⟨l⟩ := xs
  unfold to_env
  simp only [to_env_loop_eq]
  refine ⟨?_, ?_, ?_, ?_⟩
  · intro d hd
    simp only [hd]
    by_cases hn : (l.filter fun i => !i.default) = []
    · simp [hn, List.foldl, dictSet, dictGet, countKey]
    · simp only [hn, List.nil_append, List.length_map, ne_eq, if_pos, List.length_eq_zero,
        List.map_eq_nil_iff]
      simp [List.foldl, dictSet, dictGet, countKey, hn]
  · intro hn
    simp only [hn, List.nil_append, List.map_nil, List.length_nil, ne_eq,
      not_true_eq_false, if_neg, not_not]
    rcases foldl_dictSet_shape (l.filter fun i => i.default) [] (Or.inl rfl) with h | ⟨u, h⟩ <;>
      simp [h, dictGet]
  · intro hn
    have hlen : ((l.filter fun i => !i.default).map uvIndexToken).length ≠ 0 := by
      intro hc
      exact hn (List.map_eq_nil_iff.mp (List.length_eq_zero.mp hc))
    simp only [List.nil_append, hlen, ne_eq, if_pos]
    exact dictGet_dictSet_self _ _ _
  · by_cases hn : ((l.filter fun i => !i.default).map uvIndexToken).length = 0
    · simp only [List.nil_append, hn, ne_eq, not_true_eq_false, if_neg, not_not]
      rcases foldl_dictSet_shape (l.filter fun i => i.default) [] (Or.inl rfl) with h | ⟨u, h⟩ <;>
        simp [h, countKey]
    · simp only [List.nil_append, hn, ne_eq, if_pos]
      rcases foldl_dictSet_shape (l.filter fun i => i.default) [] (Or.inl rfl) with h | ⟨u, h⟩ <;>
        simp [h, countKey, dictSet]

/-- Witness for C6's theorem on a concrete collection with one default and
one named non-default entry. -/
theorem to_env_characterization_witness :
    dictGet (to_env ⟨[{ url := "http://a", default := true },
        { url := "http://b", name := some "n" }]⟩) "UV_DEFAULT_INDEX"
      = some ({ url := "http://a", default := true } : UvIndex).unsafe_url
    ∧ dictGet (to_env ⟨[{ url := "http://a", default := true },
        { url := "http://b", name := some "n" }]⟩) "UV_INDEX"
      = some (String.intercalate " "
          (([({ url := "http://b", name := some "n" } : UvIndex)]).map uvIndexToken)) := by
  have h := to_env_characterization ⟨[{ url := "http://a", default := true },
    { url := "http://b", name := some "n" }]⟩
  exact ⟨(h.1 { url := "http://a", default := true } rfl).1, h.2.2.1 (by simp)⟩

/-! ### pyproject.py: version helper (lines 59–68, 142–144) -/

/-- Embeds `Pyproject._set_version` (pyproject.py lines 59–68): reads the old
`version` value, deletes the key when the new version is `None`
(only if present) or assigns it otherwise, and returns the old value.
`PyprojectBase.set_version` (lines 142–144) calls this on the adapter's
section, which is what the pair models: new section and returned value. -/
def set_version (config : List (String × TomlVal)) (version : Option String) :
    List (String × TomlVal) × Option TomlVal :=
  let old := dictGet config "version"
  match version with
  | none =>
      if dictHas config "version" then (dictErase config "version", old) else (config, old)
  | some v => (dictSet config "version" (TomlVal.str v), old)

theorem set_version_snd (d : List (String × TomlVal)) (o : Option String) :
    (set_version d o).2 = dictGet d "version" := by
  unfold set_version
  cases o with
  | none => by_cases h : dictHas d "version" <;> simp [h]
  | some v => rfl

theorem set_version_none_removes (d : List (String × TomlVal)) :
    dictGet (set_version d none).1 "version" = none := by
  unfold set_version
  by_cases h : dictHas d "version"
  · simp [h, dictGet_dictErase_self]
  · simp [h, dictGet_none_of_not_has d "version" (by simpa using h)]

/-- C7: `set_version` returns the previously stored version (none if
absent); with `none` it removes the `version` key, otherwise it sets it.
In particular, starting from a section without a `version` key, setting a
version returns `none` and stores it, and a subsequent `set_version none`
removes the key and returns the stored version. -/
theorem set_version_contract (config : List (String × TomlVal)) (v : String) :
    ((set_version config none).2 = dictGet config "version"
      ∧ (set_version config (some v)).2 = dictGet config "version")
    ∧ dictGet (set_version config none).1 "version" = none
    ∧ dictGet (set_version config (some v)).1 "version" = some (TomlVal.str v)
    ∧ (dictGet config "version" = none →
        (set_version config (some v)).2 = none
        ∧ dictGet (set_version config (some v)).1 "version" = some (TomlVal.str v)
        ∧ (set_version (set_version config (some v)).1 none).2 = some (TomlVal.str v)
        ∧ dictGet (set_version (set_version config (some v)).1 none).1 "version" = none) := by
  refine ⟨⟨set_version_snd config none, set_version_snd config (some v)⟩,
    set_version_none_removes config, dictGet_dictSet_self config "version" _, ?_⟩
  intro h
  refine ⟨(set_version_snd config (some v)).trans h,
    dictGet_dictSet_self config "version" _, ?_, set_version_none_removes _⟩
  exact (set_version_snd _ none).trans (dictGet_dictSet_self config "version" _)

/-- Witness for C7's theorem: the spec's example on a concrete empty
section. -/
theorem set_version_contract_witness :
    (set_version ([] : List (String × TomlVal)) (some "2.0.0")).2 = none
    ∧ dictGet (set_version ([] : List (String × TomlVal)) (some "2.0.0")).1 "version"
      = some (TomlVal.str "2.0.0")
    ∧ (set_version (set_version ([] : List (String × TomlVal)) (some "2.0.0")).1 none).2
      = some (TomlVal.str "2.0.0")
    ∧ dictGet (set_version (set_version ([] : List (String × TomlVal))
        (some "2.0.0")).1 none).1 "version" = none :=
  (set_version_contract [] "2.0.0").2.2.2 rfl

/-! ### pyproject.py: local dependency rewriting (lines 109–136, 160–161) -/

/-- The body of the loop of `Pyproject._update_dependencies_version`
(pyproject.py lines 131–136): a dict value containing both a `path` and a
`develop` key has both deleted and `version` assigned; anything else is
left alone. -/
def rewriteDep (version : String) : TomlVal → TomlVal
  | TomlVal.table inner =>
      if dictHas inner "path" && dictHas inner "develop" then
        TomlVal.table (dictSet (dictErase (dictErase inner "path") "develop")
          "version" (TomlVal.str version))
      else TomlVal.table inner
  | w => w

/-- Embeds `Pyproject._update_dependencies_version` (pyproject.py lines 130–136). -/
def update_dependencies_version (version : String) (obj : List (String × TomlVal)) :
    List (String × TomlVal) :=
  obj.map fun p => (p.1, rewriteDep version p.2)

/-- The `dependencies` / `dev-dependencies` branch of
`_find_dependencies_definitions` (pyproject.py lines 122–125): the value is
updated by `_update_dependencies_version` when it is a dict, else left
alone. -/
def depsBranch (version : String) : TomlVal → TomlVal
  | TomlVal.table t => TomlVal.table (update_dependencies_version version t)
  | w => w

mutual

/-- Embeds `Pyproject._find_dependencies_definitions` (pyproject.py lines
109–128): entries under a `dependencies` or `dev-dependencies` key get
`_update_dependencies_version` applied when they are dicts; other dict
values are recursed into; non-dict values are untouched. -/
def find_dependencies_definitions (version : String) :
    List (String × TomlVal) → List (String × TomlVal)
  | [] => []
  | (k, v) :: rest =>
      (k, if k = "dependencies" ∨ k = "dev-dependencies" then depsBranch version v
          else fddVal version v) :: find_dependencies_definitions version rest

/-- Recursion of `_find_dependencies_definitions` into one value: only
dict values are walked into. -/
def fddVal (version : String) : TomlVal → TomlVal
  | TomlVal.table t => TomlVal.table (find_dependencies_definitions version t)
  | w => w

end

mutual

/-- No key named `dependencies` or `dev-dependencies` occurs anywhere in
the value. -/
def noDepsKeyVal : TomlVal → Bool
  | TomlVal.table t => noDepsKeyTable t
  | _ => true

/-- No key named `dependencies` or `dev-dependencies` occurs anywhere in
the table. -/
def noDepsKeyTable : List (String × TomlVal) → Bool
  | [] => true
  | (k, v) :: rest =>
      if k = "dependencies" ∨ k = "dev-dependencies" then false
      else noDepsKeyVal v && noDepsKeyTable rest

end

mutual

theorem fddVal_id (version : String) :
    (v : TomlVal) → noDepsKeyVal v = true → fddVal version v = v
  | TomlVal.str _, _ => by simp [fddVal]
  | TomlVal.bool _, _ => by simp [fddVal]
  | TomlVal.arr _, _ => by simp [fddVal]
  | TomlVal.table t, h => by
      rw [fddVal]
      rw [fddTable_id version t (by simpa [noDepsKeyVal] using h)]

theorem fddTable_id (version : String) :
    (t : List (String × TomlVal)) → noDepsKeyTable t = true →
      find_dependencies_definitions version t = t
  | [], _ => by simp [find_dependencies_definitions]
  | (k, v) :: rest, h => by
      rw [find_dependencies_definitions]
      have hk : ¬(k = "dependencies" ∨ k = "dev-dependencies") := by
        intro hc
        simp [noDepsKeyTable, hc] at h
      have h2 : noDepsKeyVal v = true ∧ noDepsKeyTable rest = true := by
        simpa [noDepsKeyTable, hk] using h
      rw [if_neg hk, fddVal_id version v h2.1, fddTable_id version rest h2.2]

end

/-- The inner table of the C8 counterexample: a nested entry carrying both
the local-path and the development-mode marker. -/
def c8Inner : List (String × TomlVal) :=
  [("path", TomlVal.str "../lib"), ("develop", TomlVal.bool true)]

/-- C8 counterexample: the sub-entry `{path: "../lib", develop: true}`
stored under the key `"foo"` (not under a dependencies key) carries both
markers, yet the rewrite leaves the whole section unchanged — the markers
are not removed and no version is installed. -/
theorem rewrite_local_deps_counterexample :
    find_dependencies_definitions "1.2.3" [("foo", TomlVal.table c8Inner)]
      = [("foo", TomlVal.table c8Inner)]
    ∧ dictHas c8Inner "path" = true
    ∧ dictHas c8Inner "develop" = true
    ∧ dictGet c8Inner "version" = none := by
  refine ⟨?_, rfl, rfl, rfl⟩
  simp [c8Inner, find_dependencies_definitions, fddVal]

/-- C8 (amended): the walk recurses through nested mappings, but rewriting
applies only to the direct sub-entries of mappings stored under a
`dependencies` or `dev-dependencies` key: each such sub-entry containing
both the `path` and the `develop` marker has both removed and
`version = newVersion` installed (its other keys kept); a sub-entry lacking
either marker is untouched; and any value in which no dependencies key
occurs anywhere is left completely unchanged. -/
theorem rewrite_local_deps_amended (version : String) :
    (∀ inner, dictHas inner "path" = true → dictHas inner "develop" = true →
        rewriteDep version (TomlVal.table inner)
          = TomlVal.table (dictSet (dictErase (dictErase inner "path") "develop")
              "version" (TomlVal.str version))
        ∧ dictGet (dictSet (dictErase (dictErase inner "path") "develop")
            "version" (TomlVal.str version)) "path" = none
        ∧ dictGet (dictSet (dictErase (dictErase inner "path") "develop")
            "version" (TomlVal.str version)) "develop" = none
        ∧ dictGet (dictSet (dictErase (dictErase inner "path") "develop")
            "version" (TomlVal.str version)) "version" = some (TomlVal.str version))
    ∧ (∀ inner, (dictHas inner "path" && dictHas inner "develop") = false →
        rewriteDep version (TomlVal.table inner) = TomlVal.table inner)
    ∧ (∀ v, noDepsKeyVal v = true → fddVal version v = v)
    ∧ find_dependencies_definitions version
        [("dependencies", TomlVal.table
            [("a", TomlVal.table [("path", TomlVal.str "../lib"),
                ("develop", TomlVal.bool true)]),
             ("b", TomlVal.table [("version", TomlVal.str "0.1.0")])])]
      = [("dependencies", TomlVal.table
            [("a", TomlVal.table [("version", TomlVal.str version)]),
             ("b", TomlVal.table [("version", TomlVal.str "0.1.0")])])] := by
  refine ⟨?_, ?_, fddVal_id version, ?_⟩
  · intro inner h1 h2
    refine ⟨by simp [rewriteDep, h1, h2], ?_, ?_, dictGet_dictSet_self _ _ _⟩
    · rw [dictGet_dictSet_ne _ _ _ _ (by decide)]
      rw [dictGet_dictErase_ne _ _ _ (by decide)]
      exact dictGet_dictErase_self inner "path"
    · rw [dictGet_dictSet_ne _ _ _ _ (by decide)]
      exact dictGet_dictErase_self _ "develop"
  · intro inner h
    simp [rewriteDep, h]
  · simp [find_dependencies_definitions, depsBranch, update_dependencies_version,
      rewriteDep, dictHas, dictErase, dictSet]

/-- Witness for C8's amended theorem at concrete inputs. -/
theorem rewrite_local_deps_amended_witness :
    rewriteDep "1.2.3" (TomlVal.table [("path", TomlVal.str "p"),
        ("develop", TomlVal.bool true)])
      = TomlVal.table [("version", TomlVal.str "1.2.3")]
    ∧ fddVal "1.2.3" (TomlVal.str "x") = TomlVal.str "x" := by
  have h := rewrite_local_deps_amended "1.2.3"
  refine ⟨?_, h.2.2.1 (TomlVal.str "x") (by simp [noDepsKeyVal])⟩
  exact (h.1 [("path", TomlVal.str "p"), ("develop", TomlVal.bool true)] rfl rfl).1

/-! ### pyproject.py: `_delete_pyproj_source` (lines 76–80, 153–154) -/

/-- Python runtime errors relevant to the embedded code. -/
inductive PyErr where
  | typeError (msg : String)
  | keyError (key : String)

/-- Subscripting a Python *string* with a string key, as in `v["name"]`
where `v` ranges over the keys of a dict: CPython raises
`TypeError("string indices must be integers")` regardless of the string. -/
def pyStrGetItem (_s _k : String) : Except PyErr TomlVal :=
  Except.error (PyErr.typeError "string indices must be integers")

/-- The generator
`next((i for i, v in enumerate(sources_conf) if v["name"] == source_name), None)`
of `_delete_pyproj_source`, evaluated lazily: iterating a Python dict
yields its KEYS, so `v` is a string and `v["name"]` raises on the first
element.  (A `==` comparison between mismatched types would be `False`.) -/
def findSourceIndex (name : String) : Nat → List String → Except PyErr (Option Nat)
  | _, [] => Except.ok none
  | i, key :: rest => do
      let v ← pyStrGetItem key "name"
      match v with
      | TomlVal.str s =>
          if s = name then Except.ok (some i) else findSourceIndex name (i + 1) rest
      | _ => findSourceIndex name (i + 1) rest

/-- Embeds `Pyproject._delete_pyproj_source` (pyproject.py lines 76–80).  Its
parameter `sources_conf` is the adapter SECTION — a dict, as passed by
`PyprojectBase.delete_source` (lines 153–154) — so `enumerate` runs over
the dict's keys.  When the generator is exhausted without a match the
method raises `KeyError(source_name)`; `del sources_conf[index]` with an
integer index on a string-keyed dict would raise `KeyError(index)` (it is
unreachable: the predicate raises first whenever the dict is non-empty). -/
def delete_pyproj_source (sourcesConf : List (String × TomlVal)) (name : String) :
    Except PyErr (List (String × TomlVal)) := do
  let idx ← findSourceIndex name 0 (sourcesConf.map Prod.fst)
  match idx with
  | none => Except.error (PyErr.keyError name)
  | some i => Except.error (PyErr.keyError (toString i))

/-- C4 (code bug): `delete_source` never deletes anything.  On a non-empty
section it raises `TypeError` while evaluating `v["name"]` on the section's
first key, and on an empty section it raises `KeyError(source_name)` — even
when the section's `source` list contains an entry with the requested
name. -/
theorem delete_source_always_fails (sourcesConf : List (String × TomlVal))
    (name : String) :
    delete_pyproj_source sourcesConf name
      = if sourcesConf.isEmpty then Except.error (PyErr.keyError name)
        else Except.error (PyErr.typeError "string indices must be integers") := by
  cases sourcesConf with
  | nil => rfl
  | cons p rest => rfl

/-! ### uv.py: `UvPyprojectHandler.set_package_indexes` (lines 192–202) -/

/-- The table stored under an optional value, or the empty dict: this is
what `.get(key, {})` / `setdefault(key, {})` hand to the next access. -/
def tableOf : Option TomlVal → List (String × TomlVal)
  | some (TomlVal.table t) => t
  | _ => []

/-- The deprecated-field removal of `set_package_indexes` (uv.py lines
194–198): `self.raw.get("tool", {}).get("uv", {})` aliases the real
`tool.uv` table exactly when both levels exist as dicts, and the two `pop`
calls then mutate it in place; when either level is missing the pops act on
a temporary empty dict and the document is unchanged. -/
def popDeprecated (doc : List (String × TomlVal)) : List (String × TomlVal) :=
  match dictGet doc "tool" with
  | some (TomlVal.table toolT) =>
      match dictGet toolT "uv" with
      | some (TomlVal.table uvT) =>
          dictSet doc "tool" (TomlVal.table (dictSet toolT "uv"
            (TomlVal.table (dictErase (dictErase uvT "index-url") "extra-index-url"))))
      | _ => doc
  | _ => doc

/-- Embeds `UvPyprojectHandler.set_package_indexes` (uv.py lines 192–202): pop the
deprecated keys, then `setdefault("tool", {}).setdefault("uv", {})
.setdefault("index", [])` followed by `clear()` and `extend(...)` — i.e.
the `index` key of `tool.uv` is replaced by the list freshly derived from
the collection via `to_config`, with each level created at the end of its
dict when absent and kept in place when present.  The collection is taken
as an already-constructed `UvIndexes` (in the source it is built by
`UvIndexes.from_package_indexes` from `PackageIndex` descriptors, a type
outside this excerpt). -/
def set_package_indexes (doc : List (String × TomlVal)) (xs : UvIndexes) :
    List (String × TomlVal) :=
  let doc1 := popDeprecated doc
  let toolT := tableOf (dictGet doc1 "tool")
  let uvT := tableOf (dictGet toolT "uv")
  let uvT2 := dictSet uvT "index" (TomlVal.arr ((to_config xs).map TomlVal.table))
  dictSet doc1 "tool" (TomlVal.table (dictSet toolT "uv" (TomlVal.table uvT2)))

/-- Well-formedness of the document for `set_package_indexes`: each of
`tool`, `tool.uv` and `tool.uv.index`, when present, has the shape the
Python code requires (dict, dict, list); otherwise the code would raise
`AttributeError`. -/
def shapeOkB (doc : List (String × TomlVal)) : Bool :=
  match dictGet doc "tool" with
  | none => true
  | some (TomlVal.table t) =>
      (match dictGet t "uv" with
       | none => true
       | some (TomlVal.table u) =>
           (match dictGet u "index" with
            | none => true
            | some (TomlVal.arr _) => true
            | some _ => false)
       | some _ => false)
  | some _ => false

theorem spi_eq_of_none (doc : List (String × TomlVal)) (xs : UvIndexes)
    (hTool : dictGet doc "tool" = none) :
    set_package_indexes doc xs
      = dictSet doc "tool" (TomlVal.table [("uv", TomlVal.table
          [("index", TomlVal.arr ((to_config xs).map TomlVal.table))])]) := by
  unfold set_package_indexes popDeprecated
  simp only [hTool, tableOf, dictGet]
  try rfl

theorem spi_eq_of_uv_none (doc : List (String × TomlVal)) (xs : UvIndexes)
    (toolT0 : List (String × TomlVal))
    (hTool : dictGet doc "tool" = some (TomlVal.table toolT0))
    (hUv : dictGet toolT0 "uv" = none) :
    set_package_indexes doc xs
      = dictSet doc "tool" (TomlVal.table (dictSet toolT0 "uv" (TomlVal.table
          [("index", TomlVal.arr ((to_config xs).map TomlVal.table))]))) := by
  unfold set_package_indexes popDeprecated
  simp only [hTool, hUv, tableOf, dictGet]
  try rfl

theorem spi_eq_of_uv_some (doc : List (String × TomlVal)) (xs : UvIndexes)
    (toolT0 uvT0 : List (String × TomlVal))
    (hTool : dictGet doc "tool" = some (TomlVal.table toolT0))
    (hUv : dictGet toolT0 "uv" = some (TomlVal.table uvT0)) :
    set_package_indexes doc xs
      = dictSet
          (dictSet doc "tool" (TomlVal.table (dictSet toolT0 "uv" (TomlVal.table
            (dictErase (dictErase uvT0 "index-url") "extra-index-url")))))
          "tool"
          (TomlVal.table (dictSet
            (dictSet toolT0 "uv" (TomlVal.table
              (dictErase (dictErase uvT0 "index-url") "extra-index-url")))
            "uv"
            (TomlVal.table (dictSet
              (dictErase (dictErase uvT0 "index-url") "extra-index-url")
              "index" (TomlVal.arr ((to_config xs).map TomlVal.table)))))) := by
  unfold set_package_indexes popDeprecated
  simp only [hTool, hUv, tableOf, dictGet_dictSet_self]
  try rfl

/-- C9: `set_package_indexes` removes the deprecated `index-url` and
`extra-index-url` keys, replaces `tool.uv.index` wholesale with the entries
freshly derived from the collection, and leaves every other key — at the
document level, inside `tool`, and inside `tool.uv` — unchanged. -/
theorem set_package_indexes_frame (doc : List (String × TomlVal)) (xs : UvIndexes)
    (h : shapeOkB doc = true) :
    (∃ toolT uvT,
        dictGet (set_package_indexes doc xs) "tool" = some (TomlVal.table toolT)
        ∧ dictGet toolT "uv" = some (TomlVal.table uvT)
        ∧ dictGet uvT "index" = some (TomlVal.arr ((to_config xs).map TomlVal.table))
        ∧ dictGet uvT "index-url" = none
        ∧ dictGet uvT "extra-index-url" = none
        ∧ (∀ k, k ≠ "uv" → dictGet toolT k = dictGet (tableOf (dictGet doc "tool")) k)
        ∧ (∀ k, k ≠ "index" → k ≠ "index-url" → k ≠ "extra-index-url" →
            dictGet uvT k
              = dictGet (tableOf (dictGet (tableOf (dictGet doc "tool")) "uv")) k))
    ∧ (∀ k, k ≠ "tool" → dictGet (set_package_indexes doc xs) k = dictGet doc k) := by
  cases hTool : dictGet doc "tool" with
  | none =>
      rw [spi_eq_of_none doc xs hTool]
      refine ⟨⟨_, _, dictGet_dictSet_self _ _ _, rfl, rfl, rfl, rfl,
        ?_, ?_⟩, ?_⟩
      · intro k hk
        simp [dictGet, Ne.symm hk, tableOf]
      · intro k hk hk1 hk2
        simp [dictGet, Ne.symm hk, tableOf]
      · intro k hk
        exact dictGet_dictSet_ne _ _ _ _ hk
  | some vTool =>
      cases vTool with
      | str s => simp [shapeOkB, hTool] at h
      | bool b => simp [shapeOkB, hTool] at h
      | arr l => simp [shapeOkB, hTool] at h
      | table toolT0 =>
        cases hUv : dictGet toolT0 "uv" with
        | none =>
            rw [spi_eq_of_uv_none doc xs toolT0 hTool hUv]
            refine ⟨⟨_, _, dictGet_dictSet_self _ _ _, dictGet_dictSet_self _ _ _,
              rfl, rfl, rfl, ?_, ?_⟩, ?_⟩
            · intro k hk
              rw [dictGet_dictSet_ne _ _ _ _ hk]
              simp only [tableOf]
            · intro k hk hk1 hk2
              simp only [tableOf, hUv]
              simp [dictGet, Ne.symm hk]
            · intro k hk
              exact dictGet_dictSet_ne _ _ _ _ hk
        | some vUv =>
            cases vUv with
            | str s => simp [shapeOkB, hTool, hUv] at h
            | bool b => simp [shapeOkB, hTool, hUv] at h
            | arr l => simp [shapeOkB, hTool, hUv] at h
            | table uvT0 =>
              rw [spi_eq_of_uv_some doc xs toolT0 uvT0 hTool hUv]
              refine ⟨⟨_, _, dictGet_dictSet_self _ _ _, dictGet_dictSet_self _ _ _,
                dictGet_dictSet_self _ _ _, ?_, ?_, ?_, ?_⟩, ?_⟩
              · rw [dictGet_dictSet_ne _ _ _ _ (by decide),
                  dictGet_dictErase_ne _ _ _ (by decide)]
                exact dictGet_dictErase_self _ _
              · rw [dictGet_dictSet_ne _ _ _ _ (by decide)]
                exact dictGet_dictErase_self _ _
              · intro k hk
                rw [dictGet_dictSet_ne _ _ _ _ hk, dictGet_dictSet_ne _ _ _ _ hk]
                simp only [tableOf]
              · intro k hk hk1 hk2
                rw [dictGet_dictSet_ne _ _ _ _ hk,
                  dictGet_dictErase_ne _ _ _ hk2, dictGet_dictErase_ne _ _ _ hk1]
                simp only [tableOf, hUv]
              · intro k hk
                rw [dictGet_dictSet_ne _ _ _ _ hk, dictGet_dictSet_ne _ _ _ _ hk]

/-- The document of C9's witness: one unrelated key, plus a `tool.uv` table
carrying a deprecated `index-url` and an unrelated `keep` key. -/
def c9Doc : List (String × TomlVal) :=
  [("other", TomlVal.str "keep"),
   ("tool", TomlVal.table [("uv", TomlVal.table
      [("index-url", TomlVal.str "http://old"), ("keep", TomlVal.bool true)])])]

/-- Witness for C9's theorem: on the concrete document, unrelated keys
survive, the deprecated key is gone and the index list is replaced. -/
theorem set_package_indexes_frame_witness :
    dictGet (set_package_indexes c9Doc ⟨[{ url := "http://a" }]⟩) "other"
      = some (TomlVal.str "keep")
    ∧ (∃ toolT uvT,
        dictGet (set_package_indexes c9Doc ⟨[{ url := "http://a" }]⟩) "tool"
          = some (TomlVal.table toolT)
        ∧ dictGet toolT "uv" = some (TomlVal.table uvT)
        ∧ dictGet uvT "index"
          = some (TomlVal.arr ((to_config ⟨[{ url := "http://a" }]⟩).map TomlVal.table))
        ∧ dictGet uvT "index-url" = none
        ∧ dictGet uvT "keep" = dictGet
            (tableOf (dictGet (tableOf (dictGet c9Doc "tool")) "uv")) "keep") := by
  have h := set_package_indexes_frame c9Doc ⟨[{ url := "http://a" }]⟩ rfl
  obtain ⟨⟨toolT, uvT, h1, h2, h3, h4, _, _, h7⟩, hframe⟩ := h
  exact ⟨hframe "other" (by decide), toolT, uvT, h1, h2, h3, h4,
    h7 "keep" (by decide) (by decide) (by decide)⟩

/-! ### A small Python heap model for aliasing
(pyproject.py lines 73–94, 150–158)

`_get_pyproj_sources` / `get_sources` return
`list(section.setdefault("source", []))` — a *shallow copy* of the stored
list — and `_upsert_pyproj_source` mutates either that copy (append) or a
shared entry dict (update).  To settle the claims about this aliasing,
lists and dicts are modelled as heap objects addressed by `Nat`
references. -/

/-- A Python value: immutable scalars, or a reference to a heap object. -/
inductive PyVal where
  | str (s : String)
  | bool (b : Bool)
  | ref (r : Nat)

/-- A mutable Python object: a list or a string-keyed dict. -/
inductive PyObj where
  | list (elems : List PyVal)
  | dict (entries : List (String × PyVal))

/-- The heap: the object with reference `r` lives at index `r`. -/
abbrev Heap := List PyObj

def heapGet (h : Heap) (r : Nat) : Option PyObj := h[r]?

/-- Allocation of a fresh object (Python object creation): the new
reference is the previous heap size. -/
def heapAlloc (h : Heap) (o : PyObj) : Heap × Nat := (h ++ [o], h.length)

/-- In-place mutation of the object at an existing reference. -/
def heapSet (h : Heap) (r : Nat) (o : PyObj) : Heap := h.set r o

theorem heapGet_lt (h : Heap) (r : Nat) (o : PyObj) (hg : heapGet h r = some o) :
    r < h.length := by
  induction h generalizing r with
  | nil => simp [heapGet] at hg
  | cons a t ih =>
    cases r with
    | zero => simp
    | succ n =>
      simp only [heapGet, List.getElem?_cons_succ] at hg
      simpa using ih n hg

theorem heapGet_append_new (h : Heap) (o : PyObj) :
    heapGet (h ++ [o]) h.length = some o := by
  induction h with
  | nil => rfl
  | cons a t ih =>
    simp only [heapGet, List.cons_append, List.length_cons, List.getElem?_cons_succ]
    exact ih

theorem heapGet_append_old (h : Heap) (o : PyObj) (r : Nat) (hr : r < h.length) :
    heapGet (h ++ [o]) r = heapGet h r := by
  induction h generalizing r with
  | nil => simp at hr
  | cons a t ih =>
    cases r with
    | zero => simp [heapGet]
    | succ n =>
      simp only [heapGet, List.cons_append, List.getElem?_cons_succ]
      exact ih n (by simpa using hr)

theorem heapSet_length (h : Heap) (r : Nat) (o : PyObj) :
    (heapSet h r o).length = h.length := by
  simp [heapSet]

theorem heapGet_set_self (h : Heap) (r : Nat) (o : PyObj) (hr : r < h.length) :
    heapGet (heapSet h r o) r = some o := by
  induction h generalizing r with
  | nil => simp at hr
  | cons a t ih =>
    cases r with
    | zero => simp [heapSet, heapGet]
    | succ n =>
      simp only [heapSet, heapGet, List.set_cons_succ, List.getElem?_cons_succ]
      exact ih n (by simpa using hr)

theorem heapGet_set_ne (h : Heap) (r r' : Nat) (o : PyObj) (hne : r' ≠ r) :
    heapGet (heapSet h r o) r' = heapGet h r' := by
  induction h generalizing r r' with
  | nil => simp [heapSet]
  | cons a t ih =>
    cases r with
    | zero =>
      cases r' with
      | zero => exact absurd rfl hne
      | succ n => simp [heapSet, heapGet]
    | succ m =>
      cases r' with
      | zero => simp [heapSet, heapGet]
      | succ n =>
        simp only [heapSet, heapGet, List.set_cons_succ, List.getElem?_cons_succ]
        exact ih m n (fun hc => hne (by simpa using congrArg Nat.succ hc))

/-- Embeds `PyprojectBase.get_sources` (pyproject.py lines 150–151) and the
identical body of `Pyproject._get_pyproj_sources` (lines 73–74):
`list(section.setdefault("source", []))`.  `setdefault` returns the stored
list object (inserting a freshly allocated empty list under `"source"`
when the key is absent), and `list(...)` allocates a NEW list object with
the same elements (a shallow copy).  Returns the new heap and the
reference to the copy; `none` when the section is not a dict or the stored
value is not a list (Python would raise there). -/
def getSources (h : Heap) (sectionRef : Nat) : Option (Heap × Nat) :=
  match heapGet h sectionRef with
  | some (PyObj.dict entries) =>
      match dictGet entries "source" with
      | some (PyVal.ref r) =>
          match heapGet h r with
          | some (PyObj.list elems) => some (heapAlloc h (PyObj.list elems))
          | _ => none
      | some _ => none
      | none =>
          let p := heapAlloc h (PyObj.list [])
          let h2 := heapSet p.1 sectionRef
            (PyObj.dict (entries ++ [("source", PyVal.ref p.2)]))
          some (heapAlloc h2 (PyObj.list []))
  | _ => none

/-- Python `lst.append(x)` through a reference: in-place mutation of the
list object. -/
def pyListAppend (h : Heap) (r : Nat) (x : PyVal) : Heap :=
  match heapGet h r with
  | some (PyObj.list elems) => heapSet h r (PyObj.list (elems ++ [x]))
  | _ => h

/-- The document's persisted source list: the elements of the list object
stored under the section's `"source"` key. -/
def readSources (h : Heap) (sectionRef : Nat) : Option (List PyVal) :=
  match heapGet h sectionRef with
  | some (PyObj.dict entries) =>
      match dictGet entries "source" with
      | some (PyVal.ref r) =>
          match heapGet h r with
          | some (PyObj.list elems) => some elems
          | _ => none
      | _ => none
  | _ => none

/-- The generator `next((x for x in sources_conf if x["name"] == source_name), None)`
of `_upsert_pyproj_source` (pyproject.py line 90): the first entry of the
list whose `"name"` value equals the requested name.  Well-formed entries
are dicts with a `"name"` key; in Python a missing key would raise and a
value of another type compares unequal. -/
def findSource (h : Heap) (name : String) : List PyVal → Option Nat
  | [] => none
  | PyVal.ref r :: rest =>
      (match heapGet h r with
       | some (PyObj.dict es) =>
           (match dictGet es "name" with
            | some (PyVal.str s) =>
                if s = name then some r else findSource h name rest
            | _ => findSource h name rest)
       | _ => findSource h name rest)
  | _ :: rest => findSource h name rest

/-- The `source_config` dict literal of `_upsert_pyproj_source`
(pyproject.py lines 83–87). -/
def sourceConfig (name url : String) (default secondary : Bool) :
    List (String × PyVal) :=
  [("name", PyVal.str name), ("url", PyVal.str url)]
    ++ (if default then [("default", PyVal.bool true)] else [])
    ++ (if secondary then [("secondary", PyVal.bool true)] else [])

/-- Embeds `Pyproject._upsert_pyproj_source` (pyproject.py lines 82–94): find the
entry with the requested name in the list at `sourcesRef` and merge the
config into it (`dict.update` assigns key by key, in config order), or
append the freshly allocated config dict to that list. -/
def upsertPyprojSource (h : Heap) (sourcesRef : Nat) (name url : String)
    (default secondary : Bool) : Option Heap :=
  match heapGet h sourcesRef with
  | some (PyObj.list elems) =>
      (match findSource h name elems with
       | none =>
           let p := heapAlloc h (PyObj.dict (sourceConfig name url default secondary))
           some (heapSet p.1 sourcesRef (PyObj.list (elems ++ [PyVal.ref p.2])))
       | some entryRef =>
           (match heapGet h entryRef with
            | some (PyObj.dict es) =>
                some (heapSet h entryRef (PyObj.dict
                  ((sourceConfig name url default secondary).foldl
                    (fun d q => dictSet d q.1 q.2) es)))
            | _ => none))
  | _ => none

/-- Embeds `PyprojectBase.upsert_source` (pyproject.py lines 156–158): the COPY
made by `_get_pyproj_sources` is handed to `_upsert_pyproj_source`. -/
def upsert_source (h : Heap) (sectionRef : Nat) (name url : String)
    (default secondary : Bool) : Option Heap :=
  match getSources h sectionRef with
  | some (h1, copyRef) => upsertPyprojSource h1 copyRef name url default secondary
  | none => none

/-- The concrete heap of the C3 failing input: object 0 is the adapter
section `{"source": ref 1}`, object 1 the persisted source list
`[ref 2]`, object 2 the entry `{"name": "a", "url": "u1"}`. -/
def c3Heap : Heap :=
  [PyObj.dict [("source", PyVal.ref 1)],
   PyObj.list [PyVal.ref 2],
   PyObj.dict [("name", PyVal.str "a"), ("url", PyVal.str "u1")]]

/-- C3 (code bug): `upsert_source` with a NEW name `"b"` appends the new
entry only to the shallow copy made by `_get_pyproj_sources`, so the
document's persisted source list is unchanged (still exactly `[ref 2]`);
with an EXISTING name `"a"` the shared entry dict is updated in place, so
that change does persist.  The append is silently lost. -/
theorem upsert_source_append_lost :
    (upsert_source c3Heap 0 "b" "u2" false false).map (fun h' => readSources h' 0)
      = some (readSources c3Heap 0)
    ∧ readSources c3Heap 0 = some [PyVal.ref 2]
    ∧ (upsert_source c3Heap 0 "a" "u2" false false).map
        (fun h' => (readSources h' 0, heapGet h' 2))
      = some (some [PyVal.ref 2],
          some (PyObj.dict [("name", PyVal.str "a"), ("url", PyVal.str "u2")])) :=
  ⟨rfl, rfl, rfl⟩

theorem getSources_present (h : Heap) (sec r : Nat)
    (entries : List (String × PyVal)) (elems : List PyVal)
    (hSec : heapGet h sec = some (PyObj.dict entries))
    (href : dictGet entries "source" = some (PyVal.ref r))
    (hlist : heapGet h r = some (PyObj.list elems)) :
    getSources h sec = some (h ++ [PyObj.list elems], h.length) := by
  unfold getSources
  simp only [hSec, href, hlist]
  try rfl

theorem getSources_absent (h : Heap) (sec : Nat) (entries : List (String × PyVal))
    (hSec : heapGet h sec = some (PyObj.dict entries))
    (hnone : dictGet entries "source" = none) :
    getSources h sec
      = some (heapSet (h ++ [PyObj.list []]) sec
            (PyObj.dict (entries ++ [("source", PyVal.ref h.length)])) ++ [PyObj.list []],
          (heapSet (h ++ [PyObj.list []]) sec
            (PyObj.dict (entries ++ [("source", PyVal.ref h.length)]))).length) := by
  unfold getSources
  simp only [hSec, hnone]
  try rfl

/-- C10: `get_sources` hands back a fresh copy of the section's source
list: the copy holds exactly the persisted elements, appending to the copy
never changes the document, and the only document mutation `get_sources`
itself performs is inserting an empty `"source"` list when the key is
absent (every other pre-existing object is untouched). -/
theorem get_sources_fresh_copy (h : Heap) (sec : Nat)
    (entries : List (String × PyVal))
    (hSec : heapGet h sec = some (PyObj.dict entries))
    (hSrc : dictGet entries "source" = none
      ∨ ∃ r elems, dictGet entries "source" = some (PyVal.ref r)
          ∧ heapGet h r = some (PyObj.list elems)) :
    ∃ h' c, getSources h sec = some (h', c)
      ∧ (∃ es, readSources h' sec = some es ∧ heapGet h' c = some (PyObj.list es))
      ∧ (∀ x, readSources (pyListAppend h' c x) sec = readSources h' sec)
      ∧ (dictGet entries "source" = none →
          heapGet h' sec
            = some (PyObj.dict (entries ++ [("source", PyVal.ref h.length)]))
          ∧ readSources h' sec = some [])
      ∧ (∀ r0, dictGet entries "source" = some (PyVal.ref r0) →
          heapGet h' sec = some (PyObj.dict entries))
      ∧ (∀ r0, r0 < h.length → r0 ≠ sec → heapGet h' r0 = heapGet h r0) := by
  have hsecLt : sec < h.length := heapGet_lt h sec _ hSec
  rcases hSrc with hnone | ⟨r, elems, href, hlist⟩
  · -- `"source"` absent: `setdefault` inserts a fresh empty list.
    set H2 := heapSet (h ++ [PyObj.list []]) sec
      (PyObj.dict (entries ++ [("source", PyVal.ref h.length)])) with hH2
    have hlen2 : H2.length = h.length + 1 := by
      rw [hH2, heapSet_length]
      simp
    have hsec2 : heapGet H2 sec
        = some (PyObj.dict (entries ++ [("source", PyVal.ref h.length)])) := by
      rw [hH2]
      exact heapGet_set_self _ _ _ (by simp; omega)
    have hsec' : heapGet (H2 ++ [PyObj.list []]) sec
        = some (PyObj.dict (entries ++ [("source", PyVal.ref h.length)])) :=
      (heapGet_append_old _ _ sec (by rw [hlen2]; omega)).trans hsec2
    have hsrcNew : dictGet (entries ++ [("source", PyVal.ref h.length)]) "source"
        = some (PyVal.ref h.length) := by
      rw [dictGet_append, hnone]
      simp [dictGet]
    have hrefNew : heapGet H2 h.length = some (PyObj.list []) := by
      rw [hH2, heapGet_set_ne _ _ _ _ (Ne.symm (Nat.ne_of_lt hsecLt))]
      exact heapGet_append_new h _
    have hrefObj : heapGet (H2 ++ [PyObj.list []]) h.length = some (PyObj.list []) :=
      (heapGet_append_old _ _ h.length (by rw [hlen2]; omega)).trans hrefNew
    have hread : readSources (H2 ++ [PyObj.list []]) sec = some [] := by
      unfold readSources
      simp only [hsec', hsrcNew, hrefObj]
    have hmut : ∀ x, readSources (pyListAppend (H2 ++ [PyObj.list []]) H2.length x) sec
        = readSources (H2 ++ [PyObj.list []]) sec := by
      intro x
      have hPA : pyListAppend (H2 ++ [PyObj.list []]) H2.length x
          = heapSet (H2 ++ [PyObj.list []]) H2.length (PyObj.list [x]) := by
        unfold pyListAppend
        simp only [heapGet_append_new]
        try rfl
      have hs1 : heapGet (heapSet (H2 ++ [PyObj.list []]) H2.length (PyObj.list [x])) sec
          = some (PyObj.dict (entries ++ [("source", PyVal.ref h.length)])) :=
        (heapGet_set_ne _ _ _ _ (by rw [hlen2]; omega)).trans hsec'
      have hs2 : heapGet (heapSet (H2 ++ [PyObj.list []]) H2.length (PyObj.list [x]))
          h.length = some (PyObj.list []) :=
        (heapGet_set_ne _ _ _ _ (by rw [hlen2]; omega)).trans hrefObj
      rw [hPA, hread]
      unfold readSources
      simp only [hs1, hsrcNew, hs2]
    have hframe : ∀ r0, r0 < h.length → r0 ≠ sec →
        heapGet (H2 ++ [PyObj.list []]) r0 = heapGet h r0 := by
      intro r0 hlt hne
      have s1 : heapGet (H2 ++ [PyObj.list []]) r0 = heapGet H2 r0 :=
        heapGet_append_old _ _ r0 (by rw [hlen2]; omega)
      rw [s1, hH2, heapGet_set_ne _ _ _ _ hne]
      exact heapGet_append_old h _ r0 hlt
    refine ⟨H2 ++ [PyObj.list []], H2.length, ?_,
      ⟨[], hread, heapGet_append_new _ _⟩, hmut,
      fun _ => ⟨hsec', hread⟩,
      fun r0 habs => absurd (hnone.symm.trans habs) (by simp), hframe⟩
    rw [hH2]
    exact getSources_absent h sec entries hSec hnone
  · -- `"source"` present: `setdefault` is a pure read.
    have hrLt : r < h.length := heapGet_lt h r _ hlist
    have hsec' : heapGet (h ++ [PyObj.list elems]) sec = some (PyObj.dict entries) :=
      (heapGet_append_old h _ sec hsecLt).trans hSec
    have hr' : heapGet (h ++ [PyObj.list elems]) r = some (PyObj.list elems) :=
      (heapGet_append_old h _ r hrLt).trans hlist
    have hread : readSources (h ++ [PyObj.list elems]) sec = some elems := by
      unfold readSources
      simp only [hsec', href, hr']
    have hmut : ∀ x, readSources (pyListAppend (h ++ [PyObj.list elems]) h.length x) sec
        = readSources (h ++ [PyObj.list elems]) sec := by
      intro x
      have hPA : pyListAppend (h ++ [PyObj.list elems]) h.length x
          = heapSet (h ++ [PyObj.list elems]) h.length (PyObj.list (elems ++ [x])) := by
        unfold pyListAppend
        simp only [heapGet_append_new]
        try rfl
      have hs1 : heapGet (heapSet (h ++ [PyObj.list elems]) h.length
          (PyObj.list (elems ++ [x]))) sec = some (PyObj.dict entries) :=
        (heapGet_set_ne _ _ _ _ (Nat.ne_of_lt hsecLt)).trans hsec'
      have hs2 : heapGet (heapSet (h ++ [PyObj.list elems]) h.length
          (PyObj.list (elems ++ [x]))) r = some (PyObj.list elems) :=
        (heapGet_set_ne _ _ _ _ (Nat.ne_of_lt hrLt)).trans hr'
      rw [hPA, hread]
      unfold readSources
      simp only [hs1, href, hs2]
    exact ⟨h ++ [PyObj.list elems], h.length,
      getSources_present h sec r entries elems hSec href hlist,
      ⟨elems, hread, heapGet_append_new _ _⟩, hmut,
      fun habs => absurd (habs.symm.trans href) (by simp),
      fun r0 _ => hsec',
      fun r0 hlt _ => heapGet_append_old h _ r0 hlt⟩

/-- The one-object heap of the C10 witness: an adapter section with no
`"source"` key yet. -/
def c10Heap : Heap := [PyObj.dict []]

/-- Witness for C10's theorem on the concrete one-section heap. -/
theorem get_sources_fresh_copy_witness :
    ∃ h' c, getSources c10Heap 0 = some (h', c)
      ∧ (∀ x, readSources (pyListAppend h' c x) 0 = readSources h' 0)
      ∧ heapGet h' 0 = some (PyObj.dict [("source", PyVal.ref 1)]) := by
  obtain ⟨h', c, hgs, _, hmut, hins, _, _⟩ :=
    get_sources_fresh_copy c10Heap 0 [] rfl (Or.inl rfl)
  exact ⟨h', c, hgs, hmut, (hins rfl).1⟩

end Kraken
